import Mathlib

/-!
Verification of the cadence-driven polling scheduler in
`cpppo/server/enip/poll.py` (the functions `PARAMS`, `execute`, `loop`
and `run`).  Time values are modelled as rationals; the Python sentinel
for an unset `last_poll` (the falsy `0` that `run` initialises `lst` to)
is modelled as the rational `0`.  Python float floor-division `dt // cycle`
is modelled as the integer floor of the rational quotient.
-/

namespace poll

/-- Default poll params list (module-level `PARAMS` in poll.py). -/
def PARAMS : List String := ["Output Current", "Motor Velocity"]

/-- The `params or PARAMS` idiom of `execute`: a falsy `params`
(`None`, modelled as `Option.none`, or the empty list) is replaced by
the module default `PARAMS`. -/
def substParams : Option (List String) → List String
  | none => PARAMS
  | some l => if l = [] then PARAMS else l

/-- `execute( via, params, pass_thru )`, materialised as `loop` does with
`list( executor )`.  The gateway read stream is modelled as the list
`vals` of values it yields before it either exhausts (`err = none`) or
raises (`err = some e`).  The body is `zip( params or PARAMS, reader )`
with a lazy zip: pairs are produced until either side is exhausted, and
the reader is only pulled past its values (raising `err`) when the
parameter list still wants more pairs. -/
def executeE (params : Option (List String)) (vals : List ℤ) (err : Option ℕ) :
    Except ℕ (List (String × ℤ)) :=
  let ps := substParams params
  if vals.length < ps.length then
    match err with
    | some e => Except.error e
    | none => Except.ok (ps.zip vals)
  else Except.ok (ps.zip vals)

/-- `if not cycle: cycle = 1.0` at the top of `loop`: an absent (`None`)
or zero cycle means a cycle of 1.0. -/
def effCycle : Option ℚ → ℚ
  | none => 1
  | some c => if c = 0 then 1 else c

/-- The cadence bookkeeping of `loop`: given the effective cycle `c`, the
incoming `last_poll` (`0` = unset) and `now = init_poll = timer()`,
return the advanced `last_poll` together with whether the
"Missed polls" notice is logged.  Mirrors:
`dt = init_poll - last_poll; if dt < cycle: pass else:
 missed = dt // cycle; if last_poll: (log if missed > 1);
 last_poll += cycle * missed else: last_poll = init_poll`. -/
def loopAdvance (c lp now : ℚ) : ℚ × Bool :=
  let dt := now - lp
  if dt < c then (lp, false)
  else
    let missed : ℤ := ⌊dt / c⌋
    if lp = 0 then (now, false)
    else (lp + c * missed, decide (1 < missed))

/-- The scheduling result of one `loop` call: the advanced `last_poll`,
the returned delay `max( 0, last_poll+cycle-done_poll )`, and the
missed-polls notice flag.  `init_poll` is the timer sample at entry and
`done_poll` the sample after the poll finished. -/
def loop (cycle : Option ℚ) (last_poll init_poll done_poll : ℚ) :
    ℚ × ℚ × Bool :=
  let c := effCycle cycle
  let a := loopAdvance c last_poll init_poll
  (a.1, max 0 (a.1 + c - done_poll), a.2)

/-- The successive `last_poll` values returned by repeated `loop` calls
at the given sequence of `init_poll` timestamps, each call fed the
previous return as its `last_poll` argument (as `run` does). -/
def lastPollTrace (c : ℚ) : ℚ → List ℚ → List ℚ
  | _, [] => []
  | lp, t :: ts =>
      (loopAdvance c lp t).1 :: lastPollTrace c (loopAdvance c lp t).1 ts

/-- The mutable state of one `run` iteration: `lst` and `dly` (the
`lst,dly = 0,0` pair threaded through the loop), the current `backoff`
(`none` mirrors Python `backoff = None`, meaning the previous cycle
succeeded or no failure has occurred yet), the pairs handed to the
`process` callback so far, and the exceptions handed to the `failure`
callback so far. -/
structure RunState where
  lst : ℚ
  dly : ℚ
  backoff : Option ℚ
  processed : List (String × ℤ)
  failures : List ℕ
  deriving DecidableEq

/-- The state `run` starts with: `lst,dly = 0,0`, `backoff = None`, no
callbacks invoked yet. -/
def initState : RunState := ⟨0, 0, none, [], []⟩

/-- What the environment does in one poll iteration of `run`:
either `loop` returns `(lp, dly, res)` and every `process( p, v )` call
succeeds, or `loop` returns but `process` raises exception `e` while
handling the pair at index `j`, or `loop` itself raises `e`. -/
inductive CycleOutcome where
  | success (lp dly : ℚ) (res : List (String × ℤ))
  | procFail (lp dly : ℚ) (res : List (String × ℤ)) (j : ℕ) (e : ℕ)
  | loopFail (e : ℕ)
  deriving DecidableEq

/-- The backoff update of the `except` clause of `run`:
`if backoff is None: backoff = backoff_min
 else: backoff = min( backoff * backoff_multiplier, backoff_max )`. -/
def nextBackoff (bmin bmul bmax : ℚ) : Option ℚ → ℚ
  | none => bmin
  | some b => min (b * bmul) bmax

/-- One iteration of the body of the `while` loop in `run` (the branch
that actually performs a poll, i.e. with `ela >= dly`).  On success the
results are processed in order and `backoff = None`; on any exception
the backoff is set or escalated, `dly = backoff`, and the `failure`
callback receives the exception.  When `process` raises at index `j`,
the pairs before `j` have already been processed and `lst` keeps the
value `loop` returned. -/
def runStep (bmin bmul bmax : ℚ) (st : RunState) : CycleOutcome → RunState
  | .success lp d res =>
      { st with lst := lp, dly := d, backoff := none,
                processed := st.processed ++ res }
  | .procFail lp _ res j e =>
      let b := nextBackoff bmin bmul bmax st.backoff
      { st with lst := lp, dly := b, backoff := some b,
                processed := st.processed ++ res.take j,
                failures := st.failures ++ [e] }
  | .loopFail e =>
      let b := nextBackoff bmin bmul bmax st.backoff
      { st with dly := b, backoff := some b,
                failures := st.failures ++ [e] }

/-- A run of consecutive failing iterations (`loop` raising each listed
exception in turn). -/
def applyFails (bmin bmul bmax : ℚ) (es : List ℕ) (st : RunState) : RunState :=
  es.foldl (fun s e => runStep bmin bmul bmax s (.loopFail e)) st

/-- The backoff value after the k-th consecutive failure: `backoff_min`
for the first, then `min( backoff * backoff_multiplier, backoff_max )`
for each following one. -/
def backoffSeq (bmin bmul bmax : ℚ) : ℕ → ℚ
  | 0 => bmin
  | k + 1 => min (backoffSeq bmin bmul bmax k * bmul) bmax

/-- The `while not hasattr( process, 'done' ) or not process.done` loop
of `run`, driven by an observation trace: at each iteration the first
component reports the state of the `done` attribute of the process
object (`none` = no such attribute) and the second the cycle outcome.
The loop exits (returning `some` final state) exactly when the
attribute exists and is true; otherwise it consumes the whole trace and
is still running (`none`). -/
def runIters (bmin bmul bmax : ℚ) :
    RunState → List (Option Bool × CycleOutcome) → Option RunState
  | _, [] => none
  | st, (d, o) :: rest =>
      if d = some true then some st
      else runIters bmin bmul bmax (runStep bmin bmul bmax st o) rest

/-- The argument-defaulting prologue of `run`: given the supplied
optional `backoff_min`, `backoff_multiplier`, `backoff_max`, `latency`
and the `cycle` keyword (absent or `None` both modelled as `none`),
return the effective `(backoff_min, backoff_max, backoff_multiplier,
latency)`.  Mirrors the `is None` checks of the source. -/
def runDefaults (backoff_min backoff_multiplier backoff_max latency cycle :
    Option ℚ) : ℚ × ℚ × ℚ × ℚ :=
  let bmin := match backoff_min with
    | some b => b
    | none => match cycle with
      | some c => c
      | none => 1
  let bmax := match backoff_max with
    | some b => b
    | none => bmin * 10
  let bmul := match backoff_multiplier with
    | some b => b
    | none => 3 / 2
  let lat := match latency with
    | some l => l
    | none => 1 / 2
  (bmin, bmax, bmul, lat)

/-! Helper lemmas. -/

theorem applyFails_nil (bmin bmul bmax : ℚ) (st : RunState) :
    applyFails bmin bmul bmax [] st = st := rfl

theorem applyFails_cons (bmin bmul bmax : ℚ) (e : ℕ) (es : List ℕ)
    (st : RunState) :
    applyFails bmin bmul bmax (e :: es) st
      = applyFails bmin bmul bmax es (runStep bmin bmul bmax st (.loopFail e)) :=
  rfl

theorem backoffSeq_closed (bmin bmul bmax : ℚ) (h0 : 0 ≤ bmin)
    (h1 : bmin ≤ bmax) (h2 : 1 ≤ bmul) :
    ∀ k, backoffSeq bmin bmul bmax k = min (bmin * bmul ^ k) bmax
  | 0 => by simp [backoffSeq, min_eq_left h1]
  | k + 1 => by
      rw [backoffSeq, backoffSeq_closed bmin bmul bmax h0 h1 h2 k]
      have hpow : (0:ℚ) ≤ bmin * bmul ^ k :=
        mul_nonneg h0 (pow_nonneg (le_trans zero_le_one h2) k)
      rcases le_total (bmin * bmul ^ k) bmax with h | h
      · rw [min_eq_left h, pow_succ, ← mul_assoc]
      · rw [min_eq_right h]
        have hb : (0:ℚ) ≤ bmax := le_trans h0 h1
        have hbb : bmax ≤ bmax * bmul := le_mul_of_one_le_right hb h2
        have hgrow : bmax ≤ bmin * bmul ^ (k + 1) := by
          calc bmax ≤ bmin * bmul ^ k := h
          _ ≤ bmin * bmul ^ k * bmul := le_mul_of_one_le_right hpow h2
          _ = bmin * bmul ^ (k + 1) := by rw [pow_succ, mul_assoc]
        rw [min_eq_right hbb, min_eq_right hgrow]

theorem applyFails_backoff (bmin bmul bmax : ℚ) :
    ∀ (es : List ℕ) (st : RunState) (j : ℕ),
      st.backoff = some (backoffSeq bmin bmul bmax j) →
      st.dly = backoffSeq bmin bmul bmax j →
      (applyFails bmin bmul bmax es st).backoff
          = some (backoffSeq bmin bmul bmax (j + es.length)) ∧
      (applyFails bmin bmul bmax es st).dly
          = backoffSeq bmin bmul bmax (j + es.length)
  | [], st, j, hb, hd => by simpa [applyFails_nil] using ⟨hb, hd⟩
  | e :: es, st, j, hb, hd => by
      have hb2 : (runStep bmin bmul bmax st (.loopFail e)).backoff
          = some (backoffSeq bmin bmul bmax (j + 1)) := by
        simp [runStep, nextBackoff, hb, backoffSeq]
      have hd2 : (runStep bmin bmul bmax st (.loopFail e)).dly
          = backoffSeq bmin bmul bmax (j + 1) := by
        simp [runStep, nextBackoff, hb, backoffSeq]
      have harith : j + (e :: es).length = (j + 1) + es.length := by
        simp [List.length_cons]
        omega
      rw [applyFails_cons, harith]
      exact applyFails_backoff bmin bmul bmax es _ (j + 1) hb2 hd2

theorem loopAdvance_premature (c lp now : ℚ) (h : now - lp < c) :
    loopAdvance c lp now = (lp, false) := by
  simp [loopAdvance, h]

theorem loopAdvance_init (c now : ℚ) (h : ¬ now - 0 < c) :
    loopAdvance c 0 now = (now, false) := by
  have h2 : ¬ now < c := by simpa using h
  simp [loopAdvance, h2]

theorem loopAdvance_adv (c lp now : ℚ) (h : ¬ now - lp < c) (hz : lp ≠ 0) :
    loopAdvance c lp now
      = (lp + c * (⌊(now - lp) / c⌋ : ℤ), decide (1 < ⌊(now - lp) / c⌋)) := by
  simp [loopAdvance, h, hz]

theorem floor_cycles_pos (c dt : ℚ) (hc : 0 < c) (hdt : c ≤ dt) :
    (1:ℤ) ≤ ⌊dt / c⌋ :=
  Int.le_floor.mpr (by
    push_cast
    rw [le_div_iff₀ hc]
    linarith)

theorem loopAdvance_mono (c lp now : ℚ) (hc : 0 < c) :
    lp ≤ (loopAdvance c lp now).1 := by
  by_cases h : now - lp < c
  · rw [loopAdvance_premature c lp now h]
  · have hdt : c ≤ now - lp := not_lt.mp h
    by_cases hz : lp = 0
    · subst hz
      rw [loopAdvance_init c now h]
      show (0:ℚ) ≤ now
      simp only [sub_zero] at hdt
      linarith
    · rw [loopAdvance_adv c lp now h hz]
      show lp ≤ lp + c * (⌊(now - lp) / c⌋ : ℤ)
      have hfl : (1:ℤ) ≤ ⌊(now - lp) / c⌋ := floor_cycles_pos c _ hc hdt
      have hq : (1:ℚ) ≤ ((⌊(now - lp) / c⌋ : ℤ) : ℚ) := by exact_mod_cast hfl
      nlinarith

theorem loopAdvance_grid_step (c lp now : ℚ) (hc : 0 < c) (hlp : c ≤ lp) :
    ∃ k : ℕ, (loopAdvance c lp now).1 = lp + (k : ℚ) * c ∧
      c ≤ (loopAdvance c lp now).1 := by
  by_cases h : now - lp < c
  · exact ⟨0, by rw [loopAdvance_premature c lp now h]; simp,
      by rw [loopAdvance_premature c lp now h]; exact hlp⟩
  · have hdt : c ≤ now - lp := not_lt.mp h
    have hz : lp ≠ 0 := ne_of_gt (lt_of_lt_of_le hc hlp)
    have hfl : (1:ℤ) ≤ ⌊(now - lp) / c⌋ := floor_cycles_pos c _ hc hdt
    have h0 : (0:ℤ) ≤ ⌊(now - lp) / c⌋ := le_trans (by norm_num) hfl
    have hq : (1:ℚ) ≤ ((⌊(now - lp) / c⌋ : ℤ) : ℚ) := by exact_mod_cast hfl
    refine ⟨⌊(now - lp) / c⌋.toNat, ?_, ?_⟩
    · rw [loopAdvance_adv c lp now h hz]
      show lp + c * (⌊(now - lp) / c⌋ : ℤ) = lp + (⌊(now - lp) / c⌋.toNat : ℚ) * c
      have hcast : ((⌊(now - lp) / c⌋.toNat : ℕ) : ℚ) = ((⌊(now - lp) / c⌋ : ℤ) : ℚ) := by
        exact_mod_cast congrArg (Int.cast : ℤ → ℚ) (Int.toNat_of_nonneg h0)
      rw [hcast]
      ring
    · rw [loopAdvance_adv c lp now h hz]
      show c ≤ lp + c * (⌊(now - lp) / c⌋ : ℤ)
      nlinarith

theorem lastPollTrace_chain (c : ℚ) (hc : 0 < c) :
    ∀ (ts : List ℚ) (lp : ℚ), List.Chain' (· ≤ ·) (lp :: lastPollTrace c lp ts)
  | [], lp => by simp [lastPollTrace]
  | t :: ts, lp => by
      rw [lastPollTrace, List.chain'_cons]
      exact ⟨loopAdvance_mono c lp t hc, lastPollTrace_chain c hc ts _⟩

theorem lastPollTrace_grid (c : ℚ) (hc : 0 < c) :
    ∀ (ts : List ℚ) (lp : ℚ), c ≤ lp →
      ∀ x ∈ lastPollTrace c lp ts, ∃ k : ℕ, x = lp + (k : ℚ) * c
  | [], _, _, x, hx => by simp [lastPollTrace] at hx
  | t :: ts, lp, hlp, x, hx => by
      rw [lastPollTrace] at hx
      obtain ⟨k₁, hk₁, hge⟩ := loopAdvance_grid_step c lp t hc hlp
      rcases List.mem_cons.mp hx with rfl | hx2
      · exact ⟨k₁, hk₁⟩
      · obtain ⟨k₂, hk₂⟩ := lastPollTrace_grid c hc ts _ hge x hx2
        refine ⟨k₁ + k₂, ?_⟩
        rw [hk₂, hk₁]
        push_cast
        ring

theorem runIters_done_of_some (bmin bmul bmax : ℚ) :
    ∀ (tr : List (Option Bool × CycleOutcome)) (st st2 : RunState),
      runIters bmin bmul bmax st tr = some st2 → ∃ p ∈ tr, p.1 = some true
  | [], _, _, h => by simp [runIters] at h
  | (d, o) :: rest, st, st2, h => by
      rw [runIters] at h
      by_cases hd : d = some true
      · exact ⟨(d, o), List.mem_cons_self _ _, hd⟩
      · rw [if_neg hd] at h
        obtain ⟨p, hp, hpt⟩ := runIters_done_of_some bmin bmul bmax rest _ st2 h
        exact ⟨p, List.mem_cons_of_mem _ hp, hpt⟩

theorem runIters_none_of_no_done (bmin bmul bmax : ℚ) :
    ∀ (tr : List (Option Bool × CycleOutcome)) (st : RunState),
      (∀ p ∈ tr, p.1 ≠ some true) → runIters bmin bmul bmax st tr = none
  | [], _, _ => rfl
  | (d, o) :: rest, st, h => by
      rw [runIters, if_neg (h (d, o) (List.mem_cons_self _ _))]
      exact runIters_none_of_no_done bmin bmul bmax rest _
        (fun p hp => h p (List.mem_cons_of_mem _ hp))

/-! Claim theorems. -/

/-- Claim C1: for a `loop` call with positive cycle and a previously set
`last_poll`, letting `dt = init_poll - last_poll`: if `dt < cycle` then
`last_poll` is returned unchanged and no missed-polls notice is logged;
otherwise `last_poll` advances by exactly `cycle * (dt // cycle)` and the
missed-polls notice is logged exactly when `dt // cycle` exceeds 1. -/
theorem loop_cycle_advancement (c lp now : ℚ) (hc : 0 < c) (hlp : lp ≠ 0) :
    (now - lp < c → loopAdvance c lp now = (lp, false)) ∧
    (c ≤ now - lp →
      (loopAdvance c lp now).1 = lp + c * (⌊(now - lp) / c⌋ : ℤ) ∧
      ((loopAdvance c lp now).2 = true ↔ 1 < ⌊(now - lp) / c⌋)) := by
  refine ⟨fun h => loopAdvance_premature c lp now h, fun h => ?_⟩
  rw [loopAdvance_adv c lp now (not_lt.mpr h) hlp]
  exact ⟨rfl, by simp⟩

/-- Witness for C1 at `cycle = 1`, `last_poll = 2`, `init_poll = 21/2`. -/
theorem loop_cycle_advancement_witness :
    (0:ℚ) < 1 ∧ (2:ℚ) ≠ 0 ∧
    (((21:ℚ)/2 - 2 < 1 → loopAdvance 1 2 (21/2) = (2, false)) ∧
     ((1:ℚ) ≤ 21/2 - 2 →
       (loopAdvance 1 2 (21/2)).1 = 2 + 1 * (⌊((21:ℚ)/2 - 2) / 1⌋ : ℤ) ∧
       ((loopAdvance 1 2 (21/2)).2 = true ↔ 1 < ⌊((21:ℚ)/2 - 2) / 1⌋))) :=
  ⟨by norm_num, by norm_num,
   loop_cycle_advancement 1 2 (21/2) (by norm_num) (by norm_num)⟩

/-- Claim C6: the delay returned by `loop` is exactly
`max( 0, last_poll+cycle-done_poll )` for the advanced `last_poll` and
the effective cycle, and is therefore never negative. -/
theorem loop_delay_exact (cycle : Option ℚ) (lp now done : ℚ) :
    0 ≤ (poll.loop cycle lp now done).2.1 ∧
    (poll.loop cycle lp now done).2.1
      = max 0 ((poll.loop cycle lp now done).1 + effCycle cycle - done) :=
  ⟨le_max_left 0 _, rfl⟩

/-- Claim C3: across successive `loop` calls the returned `last_poll`
never decreases, whatever the sequence of timer samples; the first
initialisation either leaves the sentinel 0 in place (premature first
call) or records the current time `t` (necessarily at least one cycle);
and from any initialised reference every later value is the reference
plus a whole number of cycles. -/
theorem loop_last_poll_grid_monotone (c lp t : ℚ) (ts : List ℚ) (hc : 0 < c) :
    List.Chain' (· ≤ ·) (lp :: lastPollTrace c lp ts) ∧
    ((loopAdvance c 0 t).1 = 0 ∨ ((loopAdvance c 0 t).1 = t ∧ c ≤ t)) ∧
    (c ≤ lp → ∀ x ∈ lastPollTrace c lp ts, ∃ k : ℕ, x = lp + (k : ℚ) * c) := by
  refine ⟨lastPollTrace_chain c hc ts lp, ?_,
    fun h => lastPollTrace_grid c hc ts lp h⟩
  by_cases h : t - 0 < c
  · left
    rw [loopAdvance_premature c 0 t h]
  · right
    have ht : c ≤ t := by simpa using not_lt.mp h
    rw [loopAdvance_init c t h]
    exact ⟨rfl, ht⟩

/-- Witness for C3 at `cycle = 1`, reference `1`, one later call at
time `3`. -/
theorem loop_last_poll_grid_monotone_witness :
    (0:ℚ) < 1 ∧
    (List.Chain' (· ≤ ·) (1 :: lastPollTrace 1 1 [3]) ∧
     ((loopAdvance 1 0 2).1 = 0 ∨ ((loopAdvance 1 0 2).1 = 2 ∧ (1:ℚ) ≤ 2)) ∧
     ((1:ℚ) ≤ 1 → ∀ x ∈ lastPollTrace 1 1 [3], ∃ k : ℕ, x = 1 + (k : ℚ) * 1)) :=
  ⟨by norm_num, loop_last_poll_grid_monotone 1 1 2 [3] (by norm_num)⟩

/-- Claim C7 counterexample: a first call (`last_poll` unset, sentinel 0)
at time `1/2` with cycle 1 returns `last_poll = 0`, not the current
time `1/2`: the premature branch fires before initialisation. -/
theorem loop_first_call_counterexample :
    (poll.loop (some 1) 0 (1/2) 1).1 = 0 ∧ ((0:ℚ) ≠ 1/2) := by
  constructor
  · show (loopAdvance (effCycle (some 1)) 0 (1/2)).1 = 0
    have hc : effCycle (some 1) = 1 := by norm_num [effCycle]
    rw [hc, loopAdvance_premature 1 0 (1/2) (by norm_num)]
  · norm_num

/-- Claim C7 as amended: on a first call with `last_poll` unset, the
returned reference is the current time `now` only when `now` is at
least one cycle past the sentinel 0; when `now < cycle` the call is
treated as premature and `last_poll` stays unset. -/
theorem loop_first_call_cases (c now : ℚ) (hc : 0 < c) :
    (c ≤ now → loopAdvance c 0 now = (now, false)) ∧
    (now < c → loopAdvance c 0 now = (0, false)) := by
  constructor
  · intro h
    exact loopAdvance_init c now (by simpa using not_lt.mpr h)
  · intro h
    exact loopAdvance_premature c 0 now (by simpa using h)

/-- Witness for the amended C7 at `cycle = 2`, `now = 5`. -/
theorem loop_first_call_cases_witness :
    (0:ℚ) < 2 ∧
    (((2:ℚ) ≤ 5 → loopAdvance 2 0 5 = (5, false)) ∧
     ((5:ℚ) < 2 → loopAdvance 2 0 5 = (0, false))) :=
  ⟨by norm_num, loop_first_call_cases 2 5 (by norm_num)⟩

/-- Claim C8 counterexample: with a supplied `cycle` of 0 and all
backoff arguments defaulted, `run` computes `backoff_min = 0`, not the
claimed 1.0: the `is None` check does not treat a falsy cycle as
unspecified. -/
theorem run_defaults_zero_cycle_counterexample :
    (runDefaults none none none none (some 0)).1 = 0 ∧ ((0:ℚ) ≠ 1) :=
  ⟨rfl, by norm_num⟩

/-- Claim C8 as amended: with defaulted arguments, `backoff_min` is the
supplied cycle value when one was given (even zero) and 1.0 otherwise;
`backoff_max` is ten times `backoff_min`; the multiplier is 1.5; the
latency slice is 0.5; `loop` itself still treats a zero cycle as 1.0,
yet a supplied cycle of 0 yields `backoff_min = 0`. -/
theorem run_defaults_values (cycle : Option ℚ) :
    (runDefaults none none none none cycle).1 = cycle.getD 1 ∧
    (runDefaults none none none none cycle).2.1 = cycle.getD 1 * 10 ∧
    (runDefaults none none none none cycle).2.2.1 = 3 / 2 ∧
    (runDefaults none none none none cycle).2.2.2 = 1 / 2 ∧
    effCycle (some 0) = 1 ∧
    (runDefaults none none none none (some 0)).1 = 0 := by
  cases cycle <;> simp [runDefaults, effCycle, Option.getD]

/-- Claim C9: an empty `params` sequence is treated exactly like an
omitted one: the module default `PARAMS` is substituted, the poll
behaves identically to the `params = None` call, and when enough values
arrive the results pair the `PARAMS` entries with them; no error is
raised for the empty sequence itself. -/
theorem execute_empty_params_defaults (vals : List ℤ) (err : Option ℕ) :
    substParams (some []) = PARAMS ∧
    executeE (some []) vals err = executeE none vals err ∧
    (PARAMS.length ≤ vals.length →
      executeE (some []) vals err = Except.ok (PARAMS.zip vals)) := by
  refine ⟨rfl, rfl, fun h => ?_⟩
  simp [executeE, substParams, not_lt.mpr h]

/-- Witness for C9: polling with `params = []` and two values yields the
two `PARAMS` entries paired with them. -/
theorem execute_empty_params_defaults_witness :
    PARAMS.length ≤ ([3, 4] : List ℤ).length ∧
    executeE (some []) [3, 4] none = Except.ok (PARAMS.zip [3, 4]) :=
  ⟨by decide, (execute_empty_params_defaults [3, 4] none).2.2 (by decide)⟩

/-- Claim C4 counterexample: with two requested parameters and a read
stream that yields a single value and then exhausts without raising,
`execute` produces a one-element result list and no error, so a ragged
sequence shorter than the parameter list is produced. -/
theorem execute_truncation_counterexample :
    executeE (some ["a", "b"]) [5] none = Except.ok [("a", 5)] ∧
    ([("a", (5:ℤ))]).length = 1 ∧ (["a", "b"] : List String).length = 2 :=
  ⟨by simp [executeE, substParams], rfl, rfl⟩

/-- Claim C4 as amended: when the read stream yields at least as many
values as requested parameters, one pair per parameter is produced in
request order; when it raises before enough values are produced the
error propagates; but when it exhausts early without raising, a
silently truncated sequence of one pair per yielded value is produced. -/
theorem execute_all_or_error_or_truncated (params : Option (List String))
    (vals : List ℤ) (err : Option ℕ) :
    ((substParams params).length ≤ vals.length →
      executeE params vals err = Except.ok ((substParams params).zip vals) ∧
      ((substParams params).zip vals).length = (substParams params).length) ∧
    (∀ e, vals.length < (substParams params).length → err = some e →
      executeE params vals err = Except.error e) ∧
    (vals.length < (substParams params).length → err = none →
      executeE params vals err = Except.ok ((substParams params).zip vals) ∧
      ((substParams params).zip vals).length = vals.length) := by
  refine ⟨fun h => ⟨?_, ?_⟩, fun e h he => ?_, fun h he => ⟨?_, ?_⟩⟩
  · simp [executeE, not_lt.mpr h]
  · rw [List.length_zip]
    exact min_eq_left h
  · simp [executeE, h, he]
  · simp [executeE, h, he]
  · rw [List.length_zip]
    exact min_eq_right h.le

/-- Witness for the amended C4: a stream that raises after one of two
values makes `execute` propagate the error. -/
theorem execute_all_or_error_or_truncated_witness :
    ([5] : List ℤ).length < (substParams (some ["a", "b"])).length ∧
    executeE (some ["a", "b"]) [5] (some 9) = Except.error 9 :=
  ⟨by decide,
   (execute_all_or_error_or_truncated (some ["a", "b"]) [5] (some 9)).2.1 9
     (by decide) rfl⟩

/-- Claim C10: when the `process` callback raises while `run` is handling
a successful poll, the supervisor takes the failure path: backoff is set
or escalated from the previous state, the pending delay becomes that
backoff, the `failure` callback receives the exception, the pairs before
the failing index have already been processed, and backoff is not
cleared for that cycle. -/
theorem run_process_callback_failure (bmin bmul bmax : ℚ) (st : RunState)
    (lp d : ℚ) (res : List (String × ℤ)) (j : ℕ) (e : ℕ) :
    (runStep bmin bmul bmax st (.procFail lp d res j e)).backoff
        = some (nextBackoff bmin bmul bmax st.backoff) ∧
    (runStep bmin bmul bmax st (.procFail lp d res j e)).dly
        = nextBackoff bmin bmul bmax st.backoff ∧
    (runStep bmin bmul bmax st (.procFail lp d res j e)).failures
        = st.failures ++ [e] ∧
    (runStep bmin bmul bmax st (.procFail lp d res j e)).processed
        = st.processed ++ res.take j ∧
    (runStep bmin bmul bmax st (.procFail lp d res j e)).backoff ≠ none :=
  ⟨rfl, rfl, rfl, rfl, by simp [runStep]⟩

/-- Claim C2: starting from a state with inactive backoff, the first
failure sets backoff (and the pending delay) to `backoff_min`; after a
further run of `k` consecutive failures the pending delay is
`min( backoff_min * backoff_multiplier^k, backoff_max )`; and one
successful cycle resets backoff to inactive. -/
theorem run_backoff_sequence (bmin bmul bmax : ℚ) (st st2 : RunState)
    (h0 : 0 ≤ bmin) (h1 : bmin ≤ bmax) (h2 : 1 ≤ bmul)
    (hb : st.backoff = none) (e : ℕ) (es : List ℕ)
    (lp d : ℚ) (res : List (String × ℤ)) :
    (runStep bmin bmul bmax st (.loopFail e)).backoff = some bmin ∧
    (runStep bmin bmul bmax st (.loopFail e)).dly = bmin ∧
    (applyFails bmin bmul bmax es (runStep bmin bmul bmax st (.loopFail e))).dly
        = min (bmin * bmul ^ es.length) bmax ∧
    (runStep bmin bmul bmax st2 (.success lp d res)).backoff = none := by
  have hb1 : (runStep bmin bmul bmax st (.loopFail e)).backoff = some bmin := by
    simp [runStep, nextBackoff, hb]
  have hd1 : (runStep bmin bmul bmax st (.loopFail e)).dly = bmin := by
    simp [runStep, nextBackoff, hb]
  refine ⟨hb1, hd1, ?_, rfl⟩
  have hall := applyFails_backoff bmin bmul bmax es _ 0
    (by rw [hb1]; simp [backoffSeq]) (by rw [hd1]; simp [backoffSeq])
  rw [hall.2, backoffSeq_closed bmin bmul bmax h0 h1 h2]
  simp

/-- Witness for C2 reproducing the spec scenario: `backoff_min = 1`,
multiplier `3/2`, `backoff_max = 10`; after three consecutive failures
the delay is `9/4` (2.25). -/
theorem run_backoff_sequence_witness :
    (0:ℚ) ≤ 1 ∧ (1:ℚ) ≤ 10 ∧ (1:ℚ) ≤ 3/2 ∧
    (applyFails 1 (3/2) 10 [1, 2]
        (runStep 1 (3/2) 10 initState (.loopFail 0))).dly
      = min ((1:ℚ) * (3/2) ^ ([1, 2] : List ℕ).length) 10 ∧
    min ((1:ℚ) * (3/2) ^ ([1, 2] : List ℕ).length) 10 = 9/4 :=
  ⟨by norm_num, by norm_num, by norm_num,
   (run_backoff_sequence 1 (3/2) 10 initState initState (by norm_num)
      (by norm_num) (by norm_num) rfl 0 [1, 2] 0 0 []).2.2.1,
   by norm_num [min_eq_left]⟩

/-- Claim C5: the `run` loop returns only when the `done` attribute of
the process object exists and is true; if no iteration ever observes
that, the loop is still running after any number of iterations; a
failing cycle whose iteration is not done simply records the exception
for the `failure` callback and re-iterates. -/
theorem run_terminates_only_on_done (bmin bmul bmax : ℚ) (st st2 : RunState)
    (tr rest : List (Option Bool × CycleOutcome)) (d : Option Bool) (e : ℕ) :
    (runIters bmin bmul bmax st tr = some st2 → ∃ p ∈ tr, p.1 = some true) ∧
    ((∀ p ∈ tr, p.1 ≠ some true) → runIters bmin bmul bmax st tr = none) ∧
    (d ≠ some true →
      runIters bmin bmul bmax st ((d, .loopFail e) :: rest)
        = runIters bmin bmul bmax (runStep bmin bmul bmax st (.loopFail e)) rest) ∧
    (runStep bmin bmul bmax st (.loopFail e)).failures = st.failures ++ [e] := by
  refine ⟨runIters_done_of_some bmin bmul bmax tr st st2,
    runIters_none_of_no_done bmin bmul bmax tr st, fun hd => ?_, rfl⟩
  rw [runIters, if_neg hd]

/-- Witness for C5: a trace of two failing iterations, neither done,
leaves the loop running and records the first exception. -/
theorem run_terminates_only_on_done_witness :
    runIters 1 (3/2) 10 initState
        [(some false, CycleOutcome.loopFail 3), (none, CycleOutcome.loopFail 4)]
      = none ∧
    (runStep 1 (3/2) 10 initState (CycleOutcome.loopFail 3)).failures
        = initState.failures ++ [3] :=
  ⟨(run_terminates_only_on_done 1 (3/2) 10 initState initState
      [(some false, CycleOutcome.loopFail 3), (none, CycleOutcome.loopFail 4)]
      [] (some false) 3).2.1 (by decide),
   (run_terminates_only_on_done 1 (3/2) 10 initState initState
      [(some false, CycleOutcome.loopFail 3), (none, CycleOutcome.loopFail 4)]
      [] (some false) 3).2.2.2⟩

end poll
